import Mathlib

/-!
Verification of the oneseismic query planner (`plan.cpp`): the schedule
maker (`partition`, `schedule`), the slice and curtain builders and
headers, the label resolver `to_cartesian_inplace`, `task_count`, and the
dispatcher `one::mkschedule`.

The geometry library (`geometry.hpp`: `gvt`, `frag_id`, `to_local`,
`fragment_count`, `slice`, `nsamples_padded`) and the message structs
(`messages.hpp`) are not part of the provided sources; those definitions
are modelled from the spec and are marked as such.  Everything else is a
direct translation of `plan.cpp`.

Machine integers: C++ `int` is embedded as `Int` with explicit 32-bit
wrap-around (`wrap32`) at the points where the source anticipates
overflow (`task_count`), and `std::size_t` values (indices, fragment
coordinates) as `Nat`.  C++ integer division on `int` truncates toward
zero, which is `Int.tdiv`.
-/

/-- Error kinds of the planner, following the spec taxonomy (kinds, not
C++ class names): `notFound` is `one::not_found`; `logicError` covers
`std::logic_error` (`task_size < 1`, unknown function) and the
`std::runtime_error` thrown by `task_count` on overflow, which the spec
files under the LogicError kind; `outOfRange` is the geometry range
error; `endDeref` marks the place where `to_cartesian_inplace`
dereferences a past-the-end iterator, which is undefined behaviour in the
source and is modelled as a distinguished failure. -/
inductive Err where
  | notFound
  | logicError
  | outOfRange
  | endDeref
deriving DecidableEq, Repr

/-- Decidable equality on `Except`, used to evaluate the planner on
concrete inputs in the witnesses below. -/
instance {e a : Type} [DecidableEq e] [DecidableEq a] : DecidableEq (Except e a) := fun x y =>
  match x, y with
  | Except.error u, Except.error v =>
      if h : u = v then isTrue (by rw [h])
      else isFalse (by intro hc; injection hc; contradiction)
  | Except.error _, Except.ok _ => isFalse (by intro hc; exact Except.noConfusion hc)
  | Except.ok _, Except.error _ => isFalse (by intro hc; exact Except.noConfusion hc)
  | Except.ok u, Except.ok v =>
      if h : u = v then isTrue (by rw [h])
      else isFalse (by intro hc; injection hc; contradiction)

/-- A length-3 vector of non-negative machine integers.  The source uses
`std::vector<int>` / `one::CP<3>` / `one::FID<3>` triples for fragment
ids, cube points and local coordinates; all values at these sites are
non-negative, so the components are embedded as `Nat`. -/
structure Triple where
  x0 : Nat
  x1 : Nat
  x2 : Nat
deriving DecidableEq, Repr

/-- Component access `v[d]` for a `Triple` (call sites always have
`d < 3`). -/
def Triple.get (t : Triple) : Nat → Nat
  | 0 => t.x0
  | 1 => t.x1
  | _ => t.x2

/-- `std::lexicographical_compare` on two length-3 vectors (strict
lexicographic less-than). -/
def lexLt (a b : Triple) : Bool :=
  decide (a.x0 < b.x0) ||
    (a.x0 == b.x0 && (decide (a.x1 < b.x1) ||
      (a.x1 == b.x1 && decide (a.x2 < b.x2))))

/-- Strict lexicographic order on `(fx, fy)` fragment-coordinate pairs. -/
def pairLt (a b : Nat × Nat) : Bool :=
  decide (a.1 < b.1) || (a.1 == b.1 && decide (a.2 < b.2))

/-- The parsed manifest: an ordered list of three dimensions, each an
ascending array of integer labels (spec data model; the source accesses
`manifest["dimensions"][0..2]`). -/
structure Manifest where
  dim0 : List Int
  dim1 : List Int
  dim2 : List Int
deriving DecidableEq, Repr

/-- `manifest.dimensions[d]` for `d < 3`. -/
def Manifest.getDim (m : Manifest) : Nat → List Int
  | 0 => m.dim0
  | 1 => m.dim1
  | _ => m.dim2

/-- Geometry view over a tiled cube: cube extents and fragment shape.
Modelled from the spec: `geometry.hpp` is not among the provided
sources. -/
structure gvt where
  cube : Triple
  frag : Triple
deriving DecidableEq, Repr

/-- `geometry(dimensions, shape)` of `plan.cpp`: cube extents are the
per-dimension label-array sizes, fragment shape is the request's
`shape`. -/
def geometry (m : Manifest) (shape : Triple) : gvt :=
  { cube := ⟨m.dim0.length, m.dim1.length, m.dim2.length⟩, frag := shape }

/-- Modelled from the spec: `fragment_count(d) = ceil(extent_d / shape_d)`
(`geometry.hpp` is missing from the sources). -/
def gvt.fragment_count (g : gvt) (d : Nat) : Nat :=
  (g.cube.get d + (g.frag.get d - 1)) / g.frag.get d

/-- Modelled from the spec: `fragment_shape()` returns the tiling shape. -/
def gvt.fragment_shape (g : gvt) : Triple := g.frag

/-- Modelled from the spec: `nsamples_padded(d) = fragment_count(d) * shape_d`. -/
def gvt.nsamples_padded (g : gvt) (d : Nat) : Nat :=
  g.fragment_count d * g.frag.get d

/-- Modelled from the spec: `frag_id(p) = (p0/s0, p1/s1, p2/s2)`. -/
def gvt.frag_id (g : gvt) (p : Triple) : Triple :=
  ⟨p.x0 / g.frag.x0, p.x1 / g.frag.x1, p.x2 / g.frag.x2⟩

/-- Modelled from the spec: `to_local(p) = (p0%s0, p1%s1, p2%s2)`. -/
def gvt.to_local (g : gvt) (p : Triple) : Triple :=
  ⟨p.x0 % g.frag.x0, p.x1 % g.frag.x1, p.x2 % g.frag.x2⟩

/-- Modelled from the spec: the fragment ids intersecting the hyperplane
`axis d == pin`, with `f_d = pin / s_d` and the other two axes iterated
in ascending lexicographic order. -/
def gvt.slice_ids (g : gvt) (d : Nat) (pin : Nat) : List Triple :=
  let f := pin / g.frag.get d
  match d with
  | 0 => (List.range (g.fragment_count 1)).flatMap
      (fun a => (List.range (g.fragment_count 2)).map (fun b => ⟨f, a, b⟩))
  | 1 => (List.range (g.fragment_count 0)).flatMap
      (fun a => (List.range (g.fragment_count 2)).map (fun b => ⟨a, f, b⟩))
  | _ => (List.range (g.fragment_count 0)).flatMap
      (fun a => (List.range (g.fragment_count 1)).map (fun b => ⟨a, b, f⟩))

/-- Modelled from the spec: `slice(d, pin)` fails with OutOfRange when the
coordinate is not below the dimension's extent, and otherwise enumerates
the intersecting fragment ids. -/
def gvt.slice (g : gvt) (d : Nat) (pin : Nat) : Except Err (List Triple) :=
  if g.cube.get d ≤ pin then Except.error Err.outOfRange
  else Except.ok (g.slice_ids d pin)

/-- Modelled from the spec: the two-axis extents of `squeeze(d)`, i.e.
`nsamples` of the axes other than `d` in original axis order (used by the
slice header). -/
def gvt.squeeze_extents (g : gvt) (d : Nat) : List Nat :=
  match d with
  | 0 => [g.cube.x1, g.cube.x2]
  | 1 => [g.cube.x0, g.cube.x2]
  | _ => [g.cube.x0, g.cube.x1]

/-- The manifest's label arrays for the axes other than `d`, in original
axis order (the slice header's index loop skipping `i == task.dim`). -/
def Manifest.except_dim (m : Manifest) (d : Nat) : List (List Int) :=
  match d with
  | 0 => [m.dim1, m.dim2]
  | 1 => [m.dim0, m.dim2]
  | _ => [m.dim0, m.dim1]

/-- Two's-complement wrap-around of a 32-bit signed `int`. -/
def wrap32 (z : Int) : Int :=
  Int.emod (z + 2 ^ 31) (2 ^ 32) - 2 ^ 31

/-- `task_count(jobs, task_size)` of `plan.cpp`: the number of
task-size'd tasks needed to process all jobs,
`(jobs + (task_size - 1)) / task_size`, with the sum wrapping as a
32-bit `int`.  A non-positive result (integer overflow) throws; the
source uses `std::runtime_error`, which the spec's taxonomy files under
the LogicError kind. -/
def task_count (jobs task_size : Int) : Except Err Int :=
  let x := Int.tdiv (wrap32 (jobs + (task_size - 1))) task_size
  if x ≤ 0 then Except.error Err.logicError else Except.ok x

/-- One iteration list of `schedule_maker::partition`'s packing loop:
`ntasks` windows of at most `t` ids, each window placed in a copy of the
scratch descriptor `output` via `set_ids`.  Messages are represented by
the descriptor value itself: `messages.hpp` is missing from the sources,
and by the spec's round-trip property `pack` is injective, so a packed
message is identified with the descriptor it packs. -/
def chunk_loop {α ι : Type} (set_ids : α → List ι → α) (output : α) (t : Nat) :
    Nat → List ι → List α
  | 0, _ => []
  | n + 1, xs => set_ids output (xs.take t) :: chunk_loop set_ids output t n (xs.drop t)

/-- `schedule_maker::partition` of `plan.cpp`, generic over the output
type exactly as the template is: it only needs read (`get_ids`) and
write (`set_ids`) access to the descriptor's `ids` member.  The
`std::size_t` value `ids.size()` is converted to the `int` parameter of
`task_count`, modelled by `wrap32`. -/
def partition {α ι : Type} (get_ids : α → List ι) (set_ids : α → List ι → α)
    (output : α) (task_size : Int) : Except Err (List α) :=
  if task_size < 1 then Except.error Err.logicError
  else
    match task_count (wrap32 (Int.ofNat (get_ids output).length)) task_size with
    | Except.error e => Except.error e
    | Except.ok ntasks =>
        Except.ok (chunk_loop set_ids output task_size.toNat ntasks.toNat (get_ids output))

/-- `std::find` over a label array followed by `std::distance`: the index
of the first exact match of `lineno`, if any. -/
def find_lineno : List Int → Int → Option Nat
  | [], _ => none
  | y :: ys, x => if y = x then some 0 else (find_lineno ys x).map (· + 1)

/-- `std::lower_bound` on an ascending label array: the index of the
first element that is not less than `x` (embedded as the length of the
longest prefix of elements below `x`, which is what `lower_bound`
returns on a sorted range). -/
def lower_bound (labels : List Int) (x : Int) : Nat :=
  (labels.takeWhile (fun y => decide (y < x))).length

/-- The `indexof` lambda of `to_cartesian_inplace`: `lower_bound`, then a
dereference of the returned iterator and a comparison with `x`.  When
`lower_bound` returns `end()` (every label is below `x`) the source reads
`*end()`, which is undefined behaviour; that read is modelled as the
distinguished error `Err.endDeref`. -/
def index_of_label (labels : List Int) (x : Int) : Except Err Nat :=
  let i := lower_bound labels x
  match labels.drop i with
  | [] => Except.error Err.endDeref
  | y :: _ => if y = x then Except.ok i else Except.error Err.notFound

/-- `to_cartesian_inplace` of `plan.cpp`: replace every label in `xs` by
its Cartesian index in `labels` (the in-place `std::transform` is
embedded functionally). -/
def to_cartesian_inplace (labels : List Int) (xs : List Int) : Except Err (List Int) :=
  xs.mapM (fun x => (index_of_label labels x).map Int.ofNat)

/-- The slice request task (`one::slice_task`; `messages.hpp` is missing
from the sources, fields are modelled from the spec's request envelope,
with the embedded manifest already parsed). -/
structure slice_task where
  pid : String
  token : String
  guid : String
  storage_endpoint : String
  shape : Triple
  dim : Int
  lineno : Int
  manifest : Manifest
deriving DecidableEq, Repr

/-- The slice fetch descriptor (`one::slice_fetch`, modelled from the
spec: envelope fields, `shape_cube`, the rewritten local `lineno`, and
the fragment id list). -/
structure slice_fetch where
  pid : String
  token : String
  guid : String
  storage_endpoint : String
  shape : Triple
  shape_cube : List Nat
  dim : Int
  lineno : Int
  ids : List Triple
deriving DecidableEq, Repr

/-- The curtain request task (`one::curtain_task`, modelled from the
spec: parallel label arrays `dim0s`, `dim1s`). -/
structure curtain_task where
  pid : String
  token : String
  guid : String
  storage_endpoint : String
  shape : Triple
  dim0s : List Int
  dim1s : List Int
  manifest : Manifest
deriving DecidableEq, Repr

/-- A `one::single` record: one fragment id bucket together with the
local coordinates to extract from that fragment. -/
structure single where
  id : Triple
  coordinates : List (Nat × Nat)
deriving DecidableEq, Repr

/-- The curtain fetch descriptor (`one::curtain_fetch`, modelled from the
spec: envelope fields, the Cartesian trace arrays and the bucket
list). -/
structure curtain_fetch where
  pid : String
  token : String
  guid : String
  storage_endpoint : String
  shape : Triple
  dim0s : List Int
  dim1s : List Int
  ids : List single
deriving DecidableEq, Repr

/-- The process header (`one::process_header`, modelled from the spec:
`pid`, `ntasks`, result `shape`, per-axis `index`). -/
structure process_header where
  pid : String
  ntasks : Int
  shape : List Int
  index : List (List Int)
deriving DecidableEq, Repr

/-- A packed message of the returned schedule: a task message (a packed
fetch descriptor) or the trailing packed process header.  `pack` is
modelled by the injections (see `chunk_loop`). -/
inductive message where
  | sliceTask (f : slice_fetch)
  | curtainTask (f : curtain_fetch)
  | header (h : process_header)
deriving DecidableEq, Repr

/-- `true` on the task messages, `false` on the packed process header. -/
def message.isTask : message → Bool
  | message.header _ => false
  | _ => true

/-- `schedule_maker<slice_task, slice_fetch>::build` of `plan.cpp`:
validate the dimension against the number of manifest dimensions (3),
locate `lineno` by linear search, rewrite it to its local form
`pin % shape[dim]`, populate `shape_cube` from the manifest sizes and
enumerate the fragment ids of the plane. -/
def slice_build (t : slice_task) (m : Manifest) : Except Err slice_fetch :=
  if 0 ≤ t.dim ∧ t.dim < 3 then
    match find_lineno (m.getDim t.dim.toNat) t.lineno with
    | none => Except.error Err.notFound
    | some pin =>
      let g := geometry m t.shape
      match g.slice t.dim.toNat pin with
      | Except.error e => Except.error e
      | Except.ok ids =>
          Except.ok { pid := t.pid, token := t.token, guid := t.guid,
                      storage_endpoint := t.storage_endpoint, shape := t.shape,
                      shape_cube := [m.dim0.length, m.dim1.length, m.dim2.length],
                      dim := t.dim,
                      lineno := Int.ofNat (pin % (g.fragment_shape.get t.dim.toNat)),
                      ids := ids }
  else Except.error Err.notFound

/-- `schedule_maker<slice_task, slice_fetch>::header` of `plan.cpp`: the
survey extents squeezed in the request dimension, and the label arrays of
the remaining axes. -/
def slice_header (t : slice_task) (m : Manifest) (ntasks : Int) : process_header :=
  let g := geometry m t.shape
  { pid := t.pid, ntasks := ntasks,
    shape := (g.squeeze_extents t.dim.toNat).map Int.ofNat,
    index := m.except_dim t.dim.toNat }

/-- The z-column of buckets inserted for a new `(fx, fy, 0)` fragment id:
`zfrags` copies of the id with the z component running `0, 1, ...`, each
with empty coordinates (the `ids.insert(itr, zfrags, top)` loop of the
curtain `build`). -/
def column (zfrags : Nat) (fid : Triple) : List single :=
  (List.range zfrags).map (fun z => { id := { fid with x2 := z }, coordinates := [] })

/-- One step of the curtain bucket pre-allocation: `lower_bound` the
`ids` list by lexicographic id order (embedded as the take/drop split at
the first element not below `fid`, which is what binary search returns
on the sorted list), and insert a fresh z-column when the id is not
present. -/
def insert_column (zfrags : Nat) (ids : List single) (fid : Triple) : List single :=
  let pre := ids.takeWhile (fun s => lexLt s.id fid)
  let post := ids.dropWhile (fun s => lexLt s.id fid)
  match post with
  | [] => pre ++ column zfrags fid
  | t :: _ => if t.id = fid then ids else pre ++ (column zfrags fid ++ post)

/-- Phase A of the curtain `build`: scan the Cartesian traces and
pre-allocate the sorted bucket list. -/
def phase_a (g : gvt) (zfrags : Nat) (pts : List (Nat × Nat)) : List single :=
  pts.foldl (fun ids p => insert_column zfrags ids (g.frag_id ⟨p.1, p.2, 0⟩)) []

/-- One step of Phase B: `lower_bound` the bucket list at `fid` and push
the local coordinate onto the `zfrags` contiguous buckets starting
there. -/
def append_coord (zfrags : Nat) (ids : List single) (fid : Triple) (c : Nat × Nat) :
    List single :=
  let pre := ids.takeWhile (fun s => lexLt s.id fid)
  let post := ids.dropWhile (fun s => lexLt s.id fid)
  pre ++ ((post.take zfrags).map (fun s => { s with coordinates := s.coordinates ++ [c] })
    ++ post.drop zfrags)

/-- Phase B of the curtain `build`: traverse the traces and put every
local coordinate in the buckets of its fragment column. -/
def phase_b (g : gvt) (zfrags : Nat) (pts : List (Nat × Nat)) (ids0 : List single) :
    List single :=
  pts.foldl (fun ids p =>
    let cp : Triple := ⟨p.1, p.2, 0⟩
    append_coord zfrags ids (g.frag_id cp) ((g.to_local cp).x0, (g.to_local cp).x1)) ids0

/-- `schedule_maker<curtain_task, curtain_fetch>::build` of `plan.cpp`:
convert the trace labels to Cartesian indices in place, then run
Phase A (sorted bucket pre-allocation) and Phase B (coordinate
assignment).  The source iterates `i` over `dim0s.size()` reading
`dim0s[i]` and `dim1s[i]`; the parallel traversal is embedded as `zip`. -/
def curtain_build (t : curtain_task) (m : Manifest) : Except Err curtain_fetch :=
  match to_cartesian_inplace m.dim0 t.dim0s with
  | Except.error e => Except.error e
  | Except.ok c0 =>
    match to_cartesian_inplace m.dim1 t.dim1s with
    | Except.error e => Except.error e
    | Except.ok c1 =>
      let g := geometry m t.shape
      let zfrags := g.fragment_count 2
      let pts := (c0.zip c1).map (fun p => (p.1.toNat, p.2.toNat))
      Except.ok { pid := t.pid, token := t.token, guid := t.guid,
                  storage_endpoint := t.storage_endpoint, shape := t.shape,
                  dim0s := c0, dim1s := c1,
                  ids := phase_b g zfrags pts (phase_a g zfrags pts) }

/-- `schedule_maker<curtain_task, curtain_fetch>::header` of `plan.cpp`:
`shape = (ntraces, zpad)`, `index` = Cartesian conversions of the trace
labels plus the unchanged deepest label array (`mdims.back()`). -/
def curtain_header (t : curtain_task) (m : Manifest) (ntasks : Int) :
    Except Err process_header :=
  let g := geometry m t.shape
  let zpad := g.nsamples_padded 2
  match to_cartesian_inplace m.dim0 t.dim0s with
  | Except.error e => Except.error e
  | Except.ok i0 =>
    match to_cartesian_inplace m.dim1 t.dim1s with
    | Except.error e => Except.error e
    | Except.ok i1 =>
        Except.ok { pid := t.pid, ntasks := ntasks,
                    shape := [Int.ofNat t.dim0s.length, Int.ofNat zpad],
                    index := [i0, i1, m.dim2] }

/-- `schedule_maker<slice_task, slice_fetch>::schedule`: build, partition,
then append the packed header as the last element. -/
def slice_schedule (t : slice_task) (task_size : Int) : Except Err (List message) :=
  match slice_build t t.manifest with
  | Except.error e => Except.error e
  | Except.ok fetch =>
    match partition (fun f => f.ids) (fun f xs => { f with ids := xs }) fetch task_size with
    | Except.error e => Except.error e
    | Except.ok sched =>
        Except.ok (sched.map message.sliceTask ++
          [message.header (slice_header t t.manifest (Int.ofNat sched.length))])

/-- `schedule_maker<curtain_task, curtain_fetch>::schedule`: build,
partition, then append the packed header as the last element. -/
def curtain_schedule (t : curtain_task) (task_size : Int) : Except Err (List message) :=
  match curtain_build t t.manifest with
  | Except.error e => Except.error e
  | Except.ok fetch =>
    match partition (fun f => f.ids) (fun f xs => { f with ids := xs }) fetch task_size with
    | Except.error e => Except.error e
    | Except.ok sched =>
      match curtain_header t t.manifest (Int.ofNat sched.length) with
      | Except.error e => Except.error e
      | Except.ok head =>
          Except.ok (sched.map message.curtainTask ++ [message.header head])

/-- A parsed request envelope as dispatched on by `one::mkschedule`: the
`function` tag selects the typed request; tags other than `slice` and
`curtain` have no handler. -/
inductive envelope where
  | slice (t : slice_task)
  | curtain (t : curtain_task)
  | other (function : String)
deriving DecidableEq, Repr

/-- `one::mkschedule` of `plan.cpp`: dispatch on the `function` tag; no
handler for an unknown function is a logic error. -/
def mkschedule : envelope → Int → Except Err (List message)
  | envelope.slice t, task_size => slice_schedule t task_size
  | envelope.curtain t, task_size => curtain_schedule t task_size
  | envelope.other _, _ => Except.error Err.logicError

/-- Strict lexicographic order on fragment ids, as a proposition. -/
def LexLt (a b : Triple) : Prop := lexLt a b = true

/-- Strict order on `(fx, fy)` pairs, as a proposition. -/
def PairLt (a b : Nat × Nat) : Prop := pairLt a b = true

/-- The `(fx, fy)` fragment-coordinate pair induced by one Cartesian
trace pair (the first two components of `frag_id` of its top point). -/
def fragPair (g : gvt) (p : Int × Int) : Nat × Nat :=
  (p.1.toNat / g.frag.x0, p.2.toNat / g.frag.x1)

/-- The `(fx, fy)` fragment-coordinate pair of a Cartesian trace pair
already converted to `Nat` components. -/
def fragPairN (g : gvt) (p : Nat × Nat) : Nat × Nat :=
  (p.1 / g.frag.x0, p.2 / g.frag.x1)

/-- Ordered insertion of an `(fx, fy)` pair into a sorted list of pairs,
keeping the list sorted and duplicate-free (the specification-level
shadow of `insert_column`). -/
def insert_pt : List (Nat × Nat) → (Nat × Nat) → List (Nat × Nat)
  | [], q => [q]
  | p :: ps, q =>
      if pairLt p q then p :: insert_pt ps q
      else if p = q then p :: ps
      else q :: p :: ps

/-- The sorted list of distinct `(fx, fy)` pairs of a point list, in
scan order of `insert_pt`. -/
def fold_pairs (pts : List (Nat × Nat)) : List (Nat × Nat) :=
  pts.foldl insert_pt []

/-- A z-column of `zfrags` buckets for the pair `q`, every bucket holding
the same coordinate list `cs` (canonical form of the curtain bucket
list). -/
def colC (zfrags : Nat) (q : Nat × Nat) (cs : List (Nat × Nat)) : List single :=
  (List.range zfrags).map (fun z => { id := ⟨q.1, q.2, z⟩, coordinates := cs })

/-- Canonical form of the curtain bucket list: the concatenation of the
z-columns of a (sorted) pair list `ps`, the column of `q` carrying the
coordinate list `f q`. -/
def canon (zfrags : Nat) (f : (Nat × Nat) → List (Nat × Nat))
    (ps : List (Nat × Nat)) : List single :=
  ps.flatMap (fun q => colC zfrags q (f q))

/-- The Cartesian trace pairs of a curtain fetch as `Nat` points, in
input order (the loop index space of the curtain `build` phases). -/
def trace_pts (out : curtain_fetch) : List (Nat × Nat) :=
  (out.dim0s.zip out.dim1s).map (fun p => (p.1.toNat, p.2.toNat))

/-- Concrete fixture: scenario manifest with a single-fragment cube. -/
def exManifest : Manifest := ⟨[1, 2], [10, 20], [100, 200]⟩

/-- Concrete fixture: slice request `dim = 0`, `lineno = 2` on `exManifest`. -/
def exSliceTask : slice_task :=
  { pid := "p", token := "tk", guid := "g", storage_endpoint := "e",
    shape := ⟨2, 2, 2⟩, dim := 0, lineno := 2, manifest := exManifest }

/-- Concrete fixture: manifest with extents `(4, 4, 4)` and ascending labels. -/
def exCurtainManifest : Manifest :=
  ⟨[10, 11, 12, 13], [20, 21, 22, 23], [30, 31, 32, 33]⟩

/-- Concrete fixture: curtain request with duplicate and unsorted traces. -/
def exCurtainTask : curtain_task :=
  { pid := "q", token := "tk", guid := "g", storage_endpoint := "e",
    shape := ⟨2, 2, 2⟩, dim0s := [13, 11, 13], dim1s := [20, 22, 20],
    manifest := exCurtainManifest }

/-- Concrete fixture: the message list produced for `exSliceTask` at
`task_size = 1` (scenario S1: one task plus the trailing header). -/
def exSliceMsgs : List message :=
  [message.sliceTask
    { pid := "p", token := "tk", guid := "g", storage_endpoint := "e",
      shape := ⟨2, 2, 2⟩, shape_cube := [2, 2, 2], dim := 0, lineno := 1,
      ids := [⟨0, 0, 0⟩] },
   message.header
    { pid := "p", ntasks := 1, shape := [2, 2], index := [[10, 20], [100, 200]] }]

/-- Concrete fixture: the slice fetch built for `exSliceTask` (`pin = 1`,
local `lineno = 1 % 2`, single fragment). -/
def exSliceFetch : slice_fetch :=
  { pid := "p", token := "tk", guid := "g", storage_endpoint := "e",
    shape := ⟨2, 2, 2⟩, shape_cube := [2, 2, 2], dim := 0, lineno := 1,
    ids := [⟨0, 0, 0⟩] }

/-- Concrete fixture: a slice request whose `lineno` is absent from the
manifest. -/
def exSliceTaskBad : slice_task :=
  { pid := "p", token := "tk", guid := "g", storage_endpoint := "e",
    shape := ⟨2, 2, 2⟩, dim := 0, lineno := 5, manifest := exManifest }

/-- Concrete fixture: the curtain fetch built for `exCurtainTask`
(Cartesian traces `[3,1,3]` and `[0,2,0]`, two fragment columns of two
z-fragments each, duplicates preserved). -/
def exCurtainFetch : curtain_fetch :=
  { pid := "q", token := "tk", guid := "g", storage_endpoint := "e",
    shape := ⟨2, 2, 2⟩, dim0s := [3, 1, 3], dim1s := [0, 2, 0],
    ids := [{ id := ⟨0, 1, 0⟩, coordinates := [(1, 0)] },
            { id := ⟨0, 1, 1⟩, coordinates := [(1, 0)] },
            { id := ⟨1, 0, 0⟩, coordinates := [(1, 0), (1, 0)] },
            { id := ⟨1, 0, 1⟩, coordinates := [(1, 0), (1, 0)] }] }

/-- Concrete fixture: the third bucket of `exCurtainFetch` (column
`(1, 0)`, fragment z = 0, two duplicate local coordinates). -/
def exBucket : single := { id := ⟨1, 0, 0⟩, coordinates := [(1, 0), (1, 0)] }

/-- Concrete fixture: a descriptor with three fragment ids. -/
def small_fetch : slice_fetch :=
  { pid := "p", token := "tk", guid := "g", storage_endpoint := "e",
    shape := ⟨2, 2, 2⟩, shape_cube := [3, 3, 3], dim := 0, lineno := 0,
    ids := [⟨1, 0, 0⟩, ⟨1, 0, 1⟩, ⟨1, 1, 0⟩] }

/-- Concrete fixture: a descriptor whose id count makes
`ids.size() + task_size - 1` overflow a 32-bit `int` at `task_size = 2`. -/
def big_fetch : slice_fetch :=
  { pid := "p", token := "tk", guid := "g", storage_endpoint := "e",
    shape := ⟨1, 1, 1⟩, shape_cube := [], dim := 0, lineno := 0,
    ids := List.replicate (2 ^ 31 - 1) ⟨0, 0, 0⟩ }

theorem wrap32_eq_self {z : Int} (h1 : -(2 ^ 31) ≤ z) (h2 : z < 2 ^ 31) :
    wrap32 z = z := by
  have hmod : Int.emod (z + 2 ^ 31) (2 ^ 32) = z + 2 ^ 31 :=
    Int.emod_eq_of_lt (by omega) (by omega)
  unfold wrap32
  omega

theorem tdiv_ofNat (m n : Nat) :
    Int.tdiv (Int.ofNat m) (Int.ofNat n) = Int.ofNat (m / n) := rfl

theorem chunk_loop_length {α ι : Type} (se : α → List ι → α) (out : α) (t : Nat) :
    ∀ (n : Nat) (xs : List ι), (chunk_loop se out t n xs).length = n := by
  intro n
  induction n with
  | zero => intro xs; rfl
  | succ k ih => intro xs; simp [chunk_loop, ih]

theorem chunk_loop_get {α ι : Type} (se : α → List ι → α) (out : α) (t : Nat) :
    ∀ (n : Nat) (xs : List ι) (i : Nat) (h : i < (chunk_loop se out t n xs).length),
      (chunk_loop se out t n xs).get ⟨i, h⟩ = se out ((xs.drop (i * t)).take t) := by
  intro n
  induction n with
  | zero => intro xs i h; rw [chunk_loop_length] at h; exact absurd h (Nat.not_lt_zero i)
  | succ k ih =>
      intro xs i h
      match i with
      | 0 => simp [chunk_loop]
      | j + 1 =>
          have hj : j < (chunk_loop se out t k (xs.drop t)).length := by
            rw [chunk_loop_length]
            rw [chunk_loop_length] at h
            omega
          have : (chunk_loop se out t (k + 1) xs).get ⟨j + 1, h⟩ =
              (chunk_loop se out t k (xs.drop t)).get ⟨j, hj⟩ := rfl
          rw [this, ih (xs.drop t) j hj, List.drop_drop]
          have harith : t + j * t = (j + 1) * t := by
            rw [Nat.succ_mul, Nat.add_comm]
          rw [harith]

theorem chunk_loop_flatten {α ι : Type} (ge : α → List ι) (se : α → List ι → α)
    (hl : ∀ a xs, ge (se a xs) = xs) (out : α) (t : Nat) :
    ∀ (n : Nat) (xs : List ι), xs.length ≤ n * t →
      ((chunk_loop se out t n xs).map ge).flatten = xs := by
  intro n
  induction n with
  | zero =>
      intro xs h
      simp only [Nat.zero_mul, Nat.le_zero, List.length_eq_zero] at h
      subst h
      rfl
  | succ k ih =>
      intro xs h
      have hdrop : (xs.drop t).length ≤ k * t := by
        rw [List.length_drop]
        rw [Nat.succ_mul] at h
        omega
      simp only [chunk_loop, List.map_cons, List.flatten_cons, hl]
      rw [ih (xs.drop t) hdrop]
      exact List.take_append_drop t xs

theorem ceil_cover (N t : Nat) (ht : 1 ≤ t) : N ≤ ((N + t - 1) / t) * t := by
  have h1 := Nat.div_add_mod (N + t - 1) t
  have h2 : (N + t - 1) % t < t := Nat.mod_lt _ (by omega)
  have h3 : ((N + t - 1) / t) * t = t * ((N + t - 1) / t) := Nat.mul_comm _ _
  omega

theorem ceil_pos (N t : Nat) (hN : 1 ≤ N) (ht : 1 ≤ t) : 1 ≤ (N + t - 1) / t := by
  rw [Nat.le_div_iff_mul_le (by omega : 0 < t)]
  omega

theorem tdiv_natCast (a b : Nat) :
    Int.tdiv (a : Int) (b : Int) = ((a / b : Nat) : Int) := rfl

theorem partition_ok {α ι : Type} (ge : α → List ι) (se : α → List ι → α)
    (out : α) (T : Int)
    (hN : 1 ≤ (ge out).length) (hT : 1 ≤ T)
    (hov : ((ge out).length : Int) + (T - 1) ≤ 2 ^ 31 - 1) :
    partition ge se out T =
      Except.ok (chunk_loop se out T.toNat
        (((ge out).length + T.toNat - 1) / T.toNat) (ge out)) := by
  obtain ⟨k, rfl⟩ := Int.eq_ofNat_of_zero_le (by omega : (0 : Int) ≤ T)
  have hk1 : 1 ≤ k := by exact_mod_cast hT
  set N := (ge out).length with hNdef
  have hw1 : wrap32 (Int.ofNat N) = Int.ofNat N := by
    rw [Int.ofNat_eq_natCast]
    exact wrap32_eq_self (by omega) (by omega)
  have hsum : (N : Int) + ((k : Int) - 1) = ((N + k - 1 : Nat) : Int) := by omega
  have hw2 : wrap32 ((N : Int) + ((k : Int) - 1)) = ((N + k - 1 : Nat) : Int) := by
    rw [hsum]
    exact wrap32_eq_self (by omega) (by omega)
  have hceil : 1 ≤ (N + k - 1) / k := ceil_pos N k hN hk1
  have htc : task_count (wrap32 (Int.ofNat N)) (k : Int) =
      Except.ok (((N + k - 1) / k : Nat) : Int) := by
    unfold task_count
    rw [hw1, Int.ofNat_eq_natCast, hw2, tdiv_natCast]
    rw [if_neg (by omega : ¬ (((N + k - 1) / k : Nat) : Int) ≤ 0)]
  unfold partition
  rw [if_neg (by omega : ¬ ((k : Int) < 1)), htc]
  have h1 : (((N + k - 1) / k : Nat) : Int).toNat =
      (N + ((k : Int)).toNat - 1) / ((k : Int)).toNat := by
    rw [Int.toNat_natCast, Int.toNat_natCast]
  exact congrArg (fun n => Except.ok (chunk_loop se out ((k : Int)).toNat n (ge out))) h1

theorem slice_schedule_shape (t : slice_task) (T : Int) (msgs : List message)
    (h : slice_schedule t T = Except.ok msgs) :
    ∃ sched, msgs = List.map message.sliceTask sched ++
      [message.header (slice_header t t.manifest (Int.ofNat sched.length))] := by
  unfold slice_schedule at h
  cases hb : slice_build t t.manifest with
  | error e =>
      simp only [hb] at h
      exact absurd h (by simp)
  | ok fetch =>
      simp only [hb] at h
      cases hp : partition (fun f => f.ids) (fun f xs => { f with ids := xs }) fetch T with
      | error e =>
          simp only [hp] at h
          exact absurd h (by simp)
      | ok sched =>
          simp only [hp] at h
          exact ⟨sched, (Except.ok.inj h).symm⟩

theorem curtain_schedule_shape (t : curtain_task) (T : Int) (msgs : List message)
    (h : curtain_schedule t T = Except.ok msgs) :
    ∃ sched head, curtain_header t t.manifest (Int.ofNat (List.length sched)) = Except.ok head ∧
      msgs = List.map message.curtainTask sched ++ [message.header head] := by
  unfold curtain_schedule at h
  cases hb : curtain_build t t.manifest with
  | error e =>
      simp only [hb] at h
      exact absurd h (by simp)
  | ok fetch =>
      simp only [hb] at h
      cases hp : partition (fun f => f.ids) (fun f xs => { f with ids := xs }) fetch T with
      | error e =>
          simp only [hp] at h
          exact absurd h (by simp)
      | ok sched =>
          simp only [hp] at h
          cases hh : curtain_header t t.manifest (Int.ofNat sched.length) with
          | error e =>
              simp only [hh] at h
              exact absurd h (by simp)
          | ok head =>
              simp only [hh] at h
              exact ⟨sched, head, hh, (Except.ok.inj h).symm⟩

theorem curtain_header_ntasks (t : curtain_task) (m : Manifest) (n : Int)
    (head : process_header) (h : curtain_header t m n = Except.ok head) :
    head.ntasks = n := by
  unfold curtain_header at h
  cases h0 : to_cartesian_inplace m.dim0 t.dim0s with
  | error e =>
      simp only [h0] at h
      exact absurd h (by simp)
  | ok i0 =>
      simp only [h0] at h
      cases h1 : to_cartesian_inplace m.dim1 t.dim1s with
      | error e =>
          simp only [h1] at h
          exact absurd h (by simp)
      | ok i1 =>
          simp only [h1] at h
          rw [← Except.ok.inj h]

/-- C1 (amended): for every fetch descriptor whose ids list has length
`N >= 1` and every `task_size T >= 1` such that `N + T - 1` does not
exceed `INT_MAX` (no 32-bit overflow in the task count), `partition`
returns exactly `ceil(N/T)` serialized messages, the i-th message
carrying the half-open window `[i*T, min((i+1)*T, N))` of the original
ids list, so the concatenation of the windows in emission order equals
the original ids list. -/
theorem spec_C1 {α ι : Type} (get_ids : α → List ι) (set_ids : α → List ι → α)
    (hset : ∀ a xs, get_ids (set_ids a xs) = xs)
    (out : α) (T : Int)
    (hN : 1 ≤ (get_ids out).length) (hT : 1 ≤ T)
    (hov : ((get_ids out).length : Int) + (T - 1) ≤ 2 ^ 31 - 1) :
    ∃ l, partition get_ids set_ids out T = Except.ok l ∧
      l.length = ((get_ids out).length + T.toNat - 1) / T.toNat ∧
      (∀ (i : Nat) (h : i < l.length),
        get_ids (l.get ⟨i, h⟩) = ((get_ids out).drop (i * T.toNat)).take T.toNat) ∧
      (l.map get_ids).flatten = get_ids out := by
  refine ⟨_, partition_ok get_ids set_ids out T hN hT hov, ?_, ?_, ?_⟩
  · exact chunk_loop_length _ _ _ _ _
  · intro i h
    have hg := congrArg get_ids
      (chunk_loop_get set_ids out T.toNat _ (get_ids out) i h)
    rw [hset] at hg
    exact hg
  · apply chunk_loop_flatten get_ids set_ids hset
    have hcover := ceil_cover (get_ids out).length T.toNat (by omega)
    exact hcover

set_option maxRecDepth 4000 in
/-- Witness for C1 at a concrete descriptor: three ids, task size 2,
hence two windows of sizes 2 and 1. -/
theorem spec_C1_witness :
    ∃ l, partition (fun f : slice_fetch => f.ids) (fun f xs => { f with ids := xs })
        small_fetch 2 = Except.ok l ∧
      l.length = (small_fetch.ids.length + (2 : Int).toNat - 1) / (2 : Int).toNat ∧
      (∀ (i : Nat) (h : i < l.length),
        (l.get ⟨i, h⟩).ids = (small_fetch.ids.drop (i * (2 : Int).toNat)).take (2 : Int).toNat) ∧
      (l.map (fun f => f.ids)).flatten = small_fetch.ids := by
  have h := spec_C1 (fun f : slice_fetch => f.ids) (fun f xs => { f with ids := xs })
    (fun _ _ => rfl) small_fetch 2 (by decide) (by decide) (by norm_num [small_fetch])
  exact h

/-- Counterexample to C1 as stated: a descriptor with `2^31 - 1` ids and
`task_size = 2` makes `ids.size() + task_size - 1` wrap around as a
32-bit `int`, so `partition` throws instead of returning `ceil(N/T)`
messages. -/
theorem spec_C1_counterexample :
    partition (fun f : slice_fetch => f.ids) (fun f xs => { f with ids := xs })
      big_fetch 2 = Except.error Err.logicError := by
  have hlen : ((fun f : slice_fetch => f.ids) big_fetch).length = 2 ^ 31 - 1 := by
    show (List.replicate (2 ^ 31 - 1) (⟨0, 0, 0⟩ : Triple)).length = 2 ^ 31 - 1
    exact List.length_replicate _ _
  have htc : task_count (wrap32 (Int.ofNat (2 ^ 31 - 1))) 2 = Except.error Err.logicError := by
    decide

  unfold partition
  rw [if_neg (by decide : ¬ (2 : Int) < 1), hlen, htc]

/-- C2: whenever `mkschedule` returns a list, it has at least one
element, the packed process header is the last element, the header's
`ntasks` field equals the number of task messages preceding it, and the
list has exactly `ntasks + 1` elements. -/
theorem spec_C2 (d : envelope) (T : Int) (msgs : List message)
    (h : mkschedule d T = Except.ok msgs) :
    1 ≤ msgs.length ∧
    ∃ pre head, msgs = pre ++ [message.header head] ∧
      head.ntasks = Int.ofNat pre.length ∧
      Int.ofNat msgs.length = head.ntasks + 1 ∧
      ∀ x ∈ pre, x.isTask = true := by
  cases d with
  | slice t =>
      obtain ⟨sched, rfl⟩ := slice_schedule_shape t T msgs h
      refine ⟨by simp, List.map message.sliceTask sched,
        slice_header t t.manifest (Int.ofNat sched.length), rfl, ?_, ?_, ?_⟩
      · simp [slice_header]
      · simp [slice_header]
      · intro x hx
        obtain ⟨f, _, rfl⟩ := List.mem_map.mp hx
        rfl
  | curtain t =>
      obtain ⟨sched, head, hh, rfl⟩ := curtain_schedule_shape t T msgs h
      have hnt := curtain_header_ntasks t t.manifest (Int.ofNat sched.length) head hh
      refine ⟨by simp, List.map message.curtainTask sched, head, rfl, ?_, ?_, ?_⟩
      · simp [hnt]
      · simp [hnt]
      · intro x hx
        obtain ⟨f, _, rfl⟩ := List.mem_map.mp hx
        rfl
  | other f =>
      exact absurd h (by simp [mkschedule])

/-- Witness for C2 at the concrete scenario request `exSliceTask` with
`task_size = 1`: one task message followed by the header. -/
theorem spec_C2_witness :
    1 ≤ exSliceMsgs.length ∧
    ∃ pre head, exSliceMsgs = pre ++ [message.header head] ∧
      head.ntasks = Int.ofNat pre.length ∧
      Int.ofNat exSliceMsgs.length = head.ntasks + 1 ∧
      ∀ x ∈ pre, x.isTask = true :=
  spec_C2 (envelope.slice exSliceTask) 1 exSliceMsgs (by decide)

/-- C9: each of `task_size < 1`, an unknown `function` tag, and a
non-positive (overflowed) task count makes the planner fail with the
LogicError kind. -/
theorem spec_C9 :
    (∀ (α ι : Type) (get_ids : α → List ι) (set_ids : α → List ι → α) (out : α) (T : Int),
        T < 1 → partition get_ids set_ids out T = Except.error Err.logicError) ∧
    (∀ jobs task_size : Int,
        Int.tdiv (wrap32 (jobs + (task_size - 1))) task_size ≤ 0 →
        task_count jobs task_size = Except.error Err.logicError) ∧
    (∀ (f : String) (T : Int),
        mkschedule (envelope.other f) T = Except.error Err.logicError) := by
  refine ⟨?_, ?_, ?_⟩
  · intro α ι ge se out T h
    unfold partition
    rw [if_pos h]
  · intro jobs ts h
    unfold task_count
    rw [if_pos h]
  · intro f T
    rfl

/-- Witness for C9: task size 0, an actually overflowing job count, and
the function tag "gradient". -/
theorem spec_C9_witness :
    partition (fun f : slice_fetch => f.ids) (fun f xs => { f with ids := xs })
        small_fetch 0 = Except.error Err.logicError ∧
    task_count (2 ^ 31 - 1) 2 = Except.error Err.logicError ∧
    mkschedule (envelope.other "gradient") 1 = Except.error Err.logicError :=
  ⟨spec_C9.1 _ _ _ _ small_fetch 0 (by decide),
   spec_C9.2.1 (2 ^ 31 - 1) 2 (by decide),
   spec_C9.2.2 "gradient" 1⟩

theorem option_map_add_one_none (o : Option Nat) :
    Option.map (fun v => v + 1) o = none ↔ o = none := by
  cases o <;> simp

theorem find_lineno_none_iff (l : List Int) (x : Int) :
    find_lineno l x = none ↔ ¬ x ∈ l := by
  induction l with
  | nil => simp [find_lineno]
  | cons y ys ih =>
      simp only [find_lineno, List.mem_cons]
      by_cases hy : y = x
      · subst hy
        simp
      · rw [if_neg hy, option_map_add_one_none, ih]
        constructor
        · intro h hc
          rcases hc with hc | hc
          · exact hy hc.symm
          · exact h hc
        · intro h hc
          exact h (Or.inr hc)

theorem find_lineno_some_lt (l : List Int) (x : Int) :
    ∀ (p : Nat), find_lineno l x = some p → p < l.length := by
  induction l with
  | nil => intro p h; exact absurd h (by simp [find_lineno])
  | cons y ys ih =>
      intro p h
      simp only [find_lineno] at h
      by_cases hy : y = x
      · rw [if_pos hy] at h
        have hp := Option.some.inj h
        simp [← hp]
      · rw [if_neg hy] at h
        cases hfind : find_lineno ys x with
        | none => rw [hfind] at h; exact absurd h (by simp)
        | some q =>
            rw [hfind] at h
            have hq := ih q hfind
            have hqp : q + 1 = p := Option.some.inj h
            simp only [List.length_cons]
            omega

theorem cube_get_eq (m : Manifest) (s : Triple) (d : Nat) (hd : d < 3) :
    (geometry m s).cube.get d = (m.getDim d).length := by
  match d with
  | 0 => rfl
  | 1 => rfl
  | 2 => rfl

/-- C4: for every slice request whose `lineno` occurs in
`manifest.dimensions[dim]` at position `pin`, the `lineno` field of the
returned slice fetch equals `pin % shape[dim]`, where `shape` is the
fragment shape. -/
theorem spec_C4 (t : slice_task) (m : Manifest) (out : slice_fetch) (pin : Nat)
    (hfind : find_lineno (m.getDim t.dim.toNat) t.lineno = some pin)
    (hok : slice_build t m = Except.ok out) :
    out.lineno = Int.ofNat (pin % t.shape.get t.dim.toNat) := by
  unfold slice_build at hok
  by_cases hd : 0 ≤ t.dim ∧ t.dim < 3
  · rw [if_pos hd] at hok
    simp only [hfind] at hok
    cases hs : (geometry m t.shape).slice t.dim.toNat pin with
    | error e =>
        simp only [hs] at hok
        exact absurd hok (by simp)
    | ok ids =>
        simp only [hs] at hok
        rw [← Except.ok.inj hok]
        rfl
  · rw [if_neg hd] at hok
    exact absurd hok (by simp)

/-- Witness for C4 at the scenario request: `pin = 1`, fragment height 2,
local `lineno = 1`. -/
theorem spec_C4_witness :
    exSliceFetch.lineno =
      Int.ofNat (1 % exSliceTask.shape.get exSliceTask.dim.toNat) :=
  spec_C4 exSliceTask exManifest exSliceFetch 1 (by decide) (by decide)

/-- C6 (code bug evaluation): on `labels = [1, 2]` and `xs = [5]` — a
query greater than every label — `to_cartesian_inplace` dereferences the
past-the-end iterator returned by `lower_bound` (undefined behaviour,
modelled as `endDeref`) instead of failing with NotFound as specified. -/
theorem spec_C6_eval :
    to_cartesian_inplace [1, 2] [5] = Except.error Err.endDeref ∧
    to_cartesian_inplace [1, 2] [5] ≠ Except.error Err.notFound := by
  exact ⟨by decide, by decide⟩

/-- C7: the slice plan fails with NotFound exactly when `dim` is outside
`[0, 3)` or `lineno` is absent from `manifest.dimensions[dim]`; otherwise
it succeeds; and in either failure case `mkschedule` produces no output
messages, not even a header. -/
theorem spec_C7 (t : slice_task) :
    (slice_build t t.manifest = Except.error Err.notFound ↔
      (¬ (0 ≤ t.dim ∧ t.dim < 3) ∨ ¬ t.lineno ∈ t.manifest.getDim t.dim.toNat)) ∧
    (¬ (¬ (0 ≤ t.dim ∧ t.dim < 3) ∨ ¬ t.lineno ∈ t.manifest.getDim t.dim.toNat) →
      ∃ out, slice_build t t.manifest = Except.ok out) ∧
    ((¬ (0 ≤ t.dim ∧ t.dim < 3) ∨ ¬ t.lineno ∈ t.manifest.getDim t.dim.toNat) →
      ∀ (T : Int) (msgs : List message),
        ¬ mkschedule (envelope.slice t) T = Except.ok msgs) := by
  have hmain : ∀ (hd : 0 ≤ t.dim ∧ t.dim < 3)
      (pin : Nat) (hf : find_lineno (t.manifest.getDim t.dim.toNat) t.lineno = some pin),
      slice_build t t.manifest = Except.ok
        { pid := t.pid, token := t.token, guid := t.guid,
          storage_endpoint := t.storage_endpoint, shape := t.shape,
          shape_cube := [t.manifest.dim0.length, t.manifest.dim1.length,
            t.manifest.dim2.length],
          dim := t.dim,
          lineno := Int.ofNat (pin %
            ((geometry t.manifest t.shape).fragment_shape.get t.dim.toNat)),
          ids := (geometry t.manifest t.shape).slice_ids t.dim.toNat pin } := by
    intro hd pin hf
    have hlt : pin < (t.manifest.getDim t.dim.toNat).length :=
      find_lineno_some_lt _ _ pin hf
    have hdn : t.dim.toNat < 3 := by omega
    have hcube : ¬ ((geometry t.manifest t.shape).cube.get t.dim.toNat ≤ pin) := by
      rw [cube_get_eq t.manifest t.shape t.dim.toNat hdn]
      omega
    unfold slice_build
    rw [if_pos hd]
    simp only [hf]
    unfold gvt.slice
    rw [if_neg hcube]
  refine ⟨⟨?_, ?_⟩, ?_, ?_⟩
  · intro herr
    by_cases hd : 0 ≤ t.dim ∧ t.dim < 3
    · cases hf : find_lineno (t.manifest.getDim t.dim.toNat) t.lineno with
      | none => exact Or.inr ((find_lineno_none_iff _ _).mp hf)
      | some pin =>
          rw [hmain hd pin hf] at herr
          exact absurd herr (by simp)
    · exact Or.inl hd
  · intro hcond
    by_cases hd : 0 ≤ t.dim ∧ t.dim < 3
    · rcases hcond with hcond | hcond
      · exact absurd hd hcond
      · unfold slice_build
        rw [if_pos hd]
        rw [(find_lineno_none_iff _ _).mpr hcond]
    · unfold slice_build
      rw [if_neg hd]
  · intro hcond
    push_neg at hcond
    obtain ⟨hd, hmem⟩ := hcond
    cases hf : find_lineno (t.manifest.getDim t.dim.toNat) t.lineno with
    | none => exact absurd ((find_lineno_none_iff _ _).mp hf) (by simpa using hmem)
    | some pin => exact ⟨_, hmain hd pin hf⟩
  · intro hcond T msgs hok
    have herr : slice_build t t.manifest = Except.error Err.notFound := by
      by_cases hd : 0 ≤ t.dim ∧ t.dim < 3
      · rcases hcond with hcond | hcond
        · exact absurd hd hcond
        · unfold slice_build
          rw [if_pos hd]
          rw [(find_lineno_none_iff _ _).mpr hcond]
      · unfold slice_build
        rw [if_neg hd]
    have : mkschedule (envelope.slice t) T = slice_schedule t T := rfl
    rw [this] at hok
    unfold slice_schedule at hok
    simp only [herr] at hok
    exact absurd hok (by simp)

/-- Witness for C7 at a request whose `lineno` is absent: the plan fails
with NotFound and no schedule is produced. -/
theorem spec_C7_witness :
    slice_build exSliceTaskBad exSliceTaskBad.manifest = Except.error Err.notFound ∧
    ∀ (msgs : List message),
      ¬ mkschedule (envelope.slice exSliceTaskBad) 1 = Except.ok msgs :=
  ⟨(spec_C7 exSliceTaskBad).1.mpr (Or.inr (by decide)),
   fun msgs => (spec_C7 exSliceTaskBad).2.2 (Or.inr (by decide)) 1 msgs⟩

/-- C8: for every curtain request whose labels all resolve, the process
header has `shape = (len(task.dim0s), nsamples_padded(axis 2))`,
`index[0]` and `index[1]` equal to the Cartesian conversions of
`task.dim0s` and `task.dim1s` against `manifest.dimensions[0]` and
`manifest.dimensions[1]`, and `index[2]` equal to `manifest.dimensions[2]`
with labels unchanged. -/
theorem spec_C8 (t : curtain_task) (m : Manifest) (i0 i1 : List Int) (n : Int)
    (h0 : to_cartesian_inplace m.dim0 t.dim0s = Except.ok i0)
    (h1 : to_cartesian_inplace m.dim1 t.dim1s = Except.ok i1) :
    curtain_header t m n = Except.ok
      { pid := t.pid, ntasks := n,
        shape := [Int.ofNat t.dim0s.length,
          Int.ofNat ((geometry m t.shape).nsamples_padded 2)],
        index := [i0, i1, m.dim2] } := by
  unfold curtain_header
  simp only [h0, h1]

/-- Witness for C8 at the scenario curtain request: `shape = (3, 4)` and
the converted index arrays. -/
theorem spec_C8_witness :
    curtain_header exCurtainTask exCurtainManifest 1 = Except.ok
      { pid := "q", ntasks := 1, shape := [3, 4],
        index := [[3, 1, 3], [0, 2, 0], [30, 31, 32, 33]] } := by
  have h := spec_C8 exCurtainTask exCurtainManifest [3, 1, 3] [0, 2, 0] 1
    (by decide) (by decide)
  exact h

/-- C10: for every curtain request whose labels all resolve, the returned
curtain fetch carries its `dim0s` and `dim1s` fields rewritten in place
to the Cartesian index arrays (the positions of the labels in
`manifest.dimensions[0]` and `manifest.dimensions[1]`). -/
theorem spec_C10 (t : curtain_task) (m : Manifest) (out : curtain_fetch)
    (hok : curtain_build t m = Except.ok out) :
    to_cartesian_inplace m.dim0 t.dim0s = Except.ok out.dim0s ∧
    to_cartesian_inplace m.dim1 t.dim1s = Except.ok out.dim1s := by
  unfold curtain_build at hok
  cases h0 : to_cartesian_inplace m.dim0 t.dim0s with
  | error e =>
      simp only [h0] at hok
      exact absurd hok (by simp)
  | ok c0 =>
      simp only [h0] at hok
      cases h1 : to_cartesian_inplace m.dim1 t.dim1s with
      | error e =>
          simp only [h1] at hok
          exact absurd hok (by simp)
      | ok c1 =>
          simp only [h1] at hok
          rw [← Except.ok.inj hok]
          exact ⟨rfl, rfl⟩

/-- Witness for C10 at the scenario curtain request: the emitted fetch
carries `[3, 1, 3]` and `[0, 2, 0]`, the Cartesian forms of the label
traces. -/
theorem spec_C10_witness :
    to_cartesian_inplace exCurtainManifest.dim0 exCurtainTask.dim0s =
      Except.ok exCurtainFetch.dim0s ∧
    to_cartesian_inplace exCurtainManifest.dim1 exCurtainTask.dim1s =
      Except.ok exCurtainFetch.dim1s :=
  spec_C10 exCurtainTask exCurtainManifest exCurtainFetch (by decide)

theorem lexLt_col_target (a b z c d : Nat) :
    lexLt ⟨a, b, z⟩ ⟨c, d, 0⟩ = pairLt (a, b) (c, d) := by
  simp [lexLt, pairLt]

theorem lexLt_same_pair (a b u v : Nat) :
    lexLt ⟨a, b, u⟩ ⟨a, b, v⟩ = decide (u < v) := by
  simp [lexLt]

theorem lexLt_of_pairLt {a b c d : Nat} (h : pairLt (a, b) (c, d) = true)
    (u v : Nat) : lexLt ⟨a, b, u⟩ ⟨c, d, v⟩ = true := by
  simp [pairLt] at h
  simp [lexLt]
  omega

theorem pairLt_irrefl (p : Nat × Nat) : pairLt p p = false := by
  simp [pairLt]

theorem pairLt_ne {p q : Nat × Nat} (h : pairLt p q = true) : p ≠ q := by
  intro hc
  subst hc
  rw [pairLt_irrefl] at h
  exact absurd h (by simp)

theorem pairLt_trans {a b c : Nat × Nat}
    (h1 : pairLt a b = true) (h2 : pairLt b c = true) : pairLt a c = true := by
  simp [pairLt] at h1 h2 ⊢
  omega

theorem pairLt_flip {p q : Nat × Nat} (h1 : pairLt p q = false) (h2 : ¬ p = q) :
    pairLt q p = true := by
  obtain ⟨p1, p2⟩ := p
  obtain ⟨q1, q2⟩ := q
  simp [pairLt, Prod.mk.injEq] at h1 h2 ⊢
  omega

theorem length_colC (z : Nat) (q : Nat × Nat) (cs : List (Nat × Nat)) :
    (colC z q cs).length = z := by
  simp [colC]

theorem mem_colC {z : Nat} {q : Nat × Nat} {cs : List (Nat × Nat)} {s : single}
    (h : s ∈ colC z q cs) : ∃ k, k < z ∧ s = ⟨⟨q.1, q.2, k⟩, cs⟩ := by
  simp only [colC, List.mem_map, List.mem_range] at h
  obtain ⟨k, hk, rfl⟩ := h
  exact ⟨k, hk, rfl⟩

theorem colC_pred {z : Nat} {q : Nat × Nat} {cs : List (Nat × Nat)} {s : single}
    (h : s ∈ colC z q cs) (c d : Nat) :
    lexLt s.id ⟨c, d, 0⟩ = pairLt q (c, d) := by
  obtain ⟨k, _, rfl⟩ := mem_colC h
  exact lexLt_col_target q.1 q.2 k c d

theorem canon_nil (z : Nat) (f : (Nat × Nat) → List (Nat × Nat)) :
    canon z f [] = [] := rfl

theorem canon_cons (z : Nat) (f : (Nat × Nat) → List (Nat × Nat))
    (q : Nat × Nat) (ps : List (Nat × Nat)) :
    canon z f (q :: ps) = colC z q (f q) ++ canon z f ps := by
  simp [canon]

theorem canon_append (z : Nat) (f : (Nat × Nat) → List (Nat × Nat))
    (ps1 ps2 : List (Nat × Nat)) :
    canon z f (ps1 ++ ps2) = canon z f ps1 ++ canon z f ps2 := by
  simp [canon]

theorem canon_zero (f : (Nat × Nat) → List (Nat × Nat)) (ps : List (Nat × Nat)) :
    canon 0 f ps = [] := by
  induction ps with
  | nil => rfl
  | cons q ps ih => rw [canon_cons, ih]; rfl

theorem canon_congr {z : Nat} {f f' : (Nat × Nat) → List (Nat × Nat)}
    {ps : List (Nat × Nat)} (h : ∀ q ∈ ps, f q = f' q) :
    canon z f ps = canon z f' ps := by
  induction ps with
  | nil => rfl
  | cons q ps ih =>
      rw [canon_cons, canon_cons, h q (by simp),
        ih (fun r hr => h r (by simp [hr]))]

theorem canon_length (z : Nat) (f : (Nat × Nat) → List (Nat × Nat))
    (ps : List (Nat × Nat)) : (canon z f ps).length = ps.length * z := by
  induction ps with
  | nil => simp [canon]
  | cons q ps ih =>
      rw [canon_cons, List.length_append, length_colC, ih]
      simp [Nat.succ_mul]
      omega

theorem canon_mem {z : Nat} {f : (Nat × Nat) → List (Nat × Nat)}
    {ps : List (Nat × Nat)} {b : single} (h : b ∈ canon z f ps) :
    ∃ q ∈ ps, ∃ k, k < z ∧ b = ⟨⟨q.1, q.2, k⟩, f q⟩ := by
  simp only [canon, List.mem_flatMap] at h
  obtain ⟨q, hq, hb⟩ := h
  obtain ⟨k, hk, rfl⟩ := mem_colC hb
  exact ⟨q, hq, k, hk, rfl⟩

theorem canon_id_mem (z : Nat) (f : (Nat × Nat) → List (Nat × Nat))
    (ps : List (Nat × Nat)) (a b c : Nat) :
    (⟨a, b, c⟩ : Triple) ∈ (canon z f ps).map (fun s => s.id) ↔
      ((a, b) ∈ ps ∧ c < z) := by
  simp only [canon, colC, List.map_flatMap, List.map_map, List.mem_flatMap,
    List.mem_map, List.mem_range]
  constructor
  · intro h
    obtain ⟨q, hq, k, hk, heq⟩ := h
    have h1 : q.1 = a := congrArg Triple.x0 heq
    have h2 : q.2 = b := congrArg Triple.x1 heq
    have h3 : k = c := congrArg Triple.x2 heq
    subst h3
    constructor
    · rw [← h1, ← h2]
      simpa using hq
    · exact hk
  · intro ⟨hab, hc⟩
    exact ⟨(a, b), hab, c, hc, rfl⟩

theorem takeWhile_append_all {α : Type} (p : α → Bool) (l1 l2 : List α)
    (h : ∀ x ∈ l1, p x = true) :
    (l1 ++ l2).takeWhile p = l1 ++ l2.takeWhile p := by
  induction l1 with
  | nil => rfl
  | cons a l1 ih =>
      simp only [List.cons_append, List.takeWhile_cons, h a (by simp)]
      rw [ih (fun x hx => h x (by simp [hx]))]
      simp

theorem dropWhile_append_all {α : Type} (p : α → Bool) (l1 l2 : List α)
    (h : ∀ x ∈ l1, p x = true) :
    (l1 ++ l2).dropWhile p = l2.dropWhile p := by
  induction l1 with
  | nil => rfl
  | cons a l1 ih =>
      simp only [List.cons_append, List.dropWhile_cons, h a (by simp)]
      rw [ih (fun x hx => h x (by simp [hx]))]
      simp

theorem takeWhile_cons_false {α : Type} (p : α → Bool) (a : α) (l : List α)
    (h : p a = false) : (a :: l).takeWhile p = [] := by
  simp [List.takeWhile_cons, h]

theorem dropWhile_cons_false {α : Type} (p : α → Bool) (a : α) (l : List α)
    (h : p a = false) : (a :: l).dropWhile p = a :: l := by
  simp [List.dropWhile_cons, h]

theorem column_eq_colC (z : Nat) (q : Nat × Nat) :
    column z ⟨q.1, q.2, 0⟩ = colC z q [] := rfl

theorem colC_succ (n : Nat) (q : Nat × Nat) (cs : List (Nat × Nat)) :
    colC (n + 1) q cs =
      (⟨⟨q.1, q.2, 0⟩, cs⟩ : single) ::
        (List.range n).map (fun k => ⟨⟨q.1, q.2, k + 1⟩, cs⟩) := by
  simp only [colC, List.range_succ_eq_map, List.map_cons, List.map_map]
  constructor

theorem insert_column_nil (z : Nat) (fid : Triple) :
    insert_column z [] fid = column z fid := by
  simp [insert_column]

theorem insert_column_append_true (z : Nat) (l1 l2 : List single) (fid : Triple)
    (h : ∀ x ∈ l1, lexLt x.id fid = true) :
    insert_column z (l1 ++ l2) fid = l1 ++ insert_column z l2 fid := by
  have htake := takeWhile_append_all (fun s => lexLt s.id fid) l1 l2 h
  have hdrop := dropWhile_append_all (fun s => lexLt s.id fid) l1 l2 h
  cases hpost : l2.dropWhile (fun s => lexLt s.id fid) with
  | nil =>
      rw [hpost] at hdrop
      simp only [insert_column, htake, hdrop, hpost]
      simp
  | cons t rest =>
      rw [hpost] at hdrop
      by_cases ht : t.id = fid
      · simp only [insert_column, htake, hdrop, hpost, if_pos ht]
      · simp only [insert_column, htake, hdrop, hpost, if_neg ht]
        simp

theorem insert_pt_cons_lt {r q : Nat × Nat} (ps : List (Nat × Nat))
    (h : pairLt r q = true) : insert_pt (r :: ps) q = r :: insert_pt ps q := by
  simp [insert_pt, h]

theorem insert_pt_cons_eq {r q : Nat × Nat} (ps : List (Nat × Nat))
    (h1 : pairLt r q = false) (h2 : r = q) : insert_pt (r :: ps) q = r :: ps := by
  subst h2
  simp [insert_pt, h1]

theorem insert_pt_cons_gt {r q : Nat × Nat} (ps : List (Nat × Nat))
    (h1 : pairLt r q = false) (h2 : ¬ r = q) :
    insert_pt (r :: ps) q = q :: r :: ps := by
  simp [insert_pt, h1, h2]

theorem insert_column_canon (z : Nat) (q : Nat × Nat) :
    ∀ (ps : List (Nat × Nat)), List.Pairwise PairLt ps →
    insert_column z (canon z (fun _ => []) ps) ⟨q.1, q.2, 0⟩ =
      canon z (fun _ => []) (insert_pt ps q) := by
  intro ps hs
  cases z with
  | zero =>
      rw [canon_zero, canon_zero]
      simp [insert_column, column]
  | succ n =>
      induction hs with
      | nil =>
          rw [canon_nil, insert_column_nil, column_eq_colC]
          show colC (n + 1) q [] = canon (n + 1) (fun _ => []) [q]
          rw [canon_cons, canon_nil, List.append_nil]
      | @cons r ps hr htail ih =>
          by_cases hrq : pairLt r q = true
          · rw [canon_cons,
              insert_column_append_true _ _ _ _
                (fun x hx => by rw [colC_pred hx]; exact hrq),
              ih, insert_pt_cons_lt ps hrq, canon_cons]
          · have hrq' : pairLt r q = false := by
              cases hb : pairLt r q
              · rfl
              · exact absurd hb hrq
            have hpred : (fun s => lexLt s.id (⟨q.1, q.2, 0⟩ : Triple))
                (⟨⟨r.1, r.2, 0⟩, []⟩ : single) = false := by
              show lexLt ⟨r.1, r.2, 0⟩ ⟨q.1, q.2, 0⟩ = false
              rw [lexLt_col_target]
              exact hrq'
            have hexp : canon (n + 1) (fun _ => []) (r :: ps) =
                (⟨⟨r.1, r.2, 0⟩, []⟩ : single) ::
                  ((List.range n).map (fun k => ⟨⟨r.1, r.2, k + 1⟩, []⟩) ++
                    canon (n + 1) (fun _ => []) ps) := by
              rw [canon_cons, colC_succ, List.cons_append]
            have htake : (canon (n + 1) (fun _ => []) (r :: ps)).takeWhile
                (fun s => lexLt s.id (⟨q.1, q.2, 0⟩ : Triple)) = [] := by
              rw [hexp]
              exact takeWhile_cons_false _ _ _ hpred
            have hdrop : (canon (n + 1) (fun _ => []) (r :: ps)).dropWhile
                (fun s => lexLt s.id (⟨q.1, q.2, 0⟩ : Triple)) =
                (⟨⟨r.1, r.2, 0⟩, []⟩ : single) ::
                  ((List.range n).map (fun k => ⟨⟨r.1, r.2, k + 1⟩, []⟩) ++
                    canon (n + 1) (fun _ => []) ps) := by
              rw [hexp]
              exact dropWhile_cons_false _ _ _ hpred
            by_cases hreq : r = q
            · have hid : (Triple.mk r.1 r.2 0) = ⟨q.1, q.2, 0⟩ := by rw [hreq]
              simp only [insert_column, htake, hdrop, if_pos hid]
              rw [insert_pt_cons_eq ps hrq' hreq]
            · have hid : ¬ (Triple.mk r.1 r.2 0) = ⟨q.1, q.2, 0⟩ := by
                intro hc
                apply hreq
                have h1 : r.1 = q.1 := congrArg Triple.x0 hc
                have h2 : r.2 = q.2 := congrArg Triple.x1 hc
                exact Prod.ext h1 h2
              simp only [insert_column, htake, hdrop, if_neg hid]
              rw [insert_pt_cons_gt ps hrq' hreq, canon_cons, canon_cons,
                column_eq_colC, colC_succ n q [], colC_succ n r []]
              simp

theorem pairLt_false_of_not_true {r q : Nat × Nat} (h : ¬ pairLt r q = true) :
    pairLt r q = false := by
  cases hb : pairLt r q
  · rfl
  · exact absurd hb h

theorem insert_pt_mem (ps : List (Nat × Nat)) (q x : Nat × Nat) :
    x ∈ insert_pt ps q ↔ x = q ∨ x ∈ ps := by
  induction ps with
  | nil => simp [insert_pt]
  | cons r ps ih =>
      by_cases h1 : pairLt r q = true
      · rw [insert_pt_cons_lt ps h1]
        simp only [List.mem_cons, ih]
        tauto
      · have h1' := pairLt_false_of_not_true h1
        by_cases h2 : r = q
        · rw [insert_pt_cons_eq ps h1' h2]
          subst h2
          simp only [List.mem_cons]
          tauto
        · rw [insert_pt_cons_gt ps h1' h2]
          simp only [List.mem_cons]

theorem insert_pt_sorted {ps : List (Nat × Nat)} (q : Nat × Nat)
    (hs : List.Pairwise PairLt ps) : List.Pairwise PairLt (insert_pt ps q) := by
  induction hs with
  | nil =>
      show List.Pairwise PairLt [q]
      simp
  | @cons r ps hr htail ih =>
      by_cases h1 : pairLt r q = true
      · rw [insert_pt_cons_lt ps h1]
        refine List.Pairwise.cons ?_ ih
        intro x hx
        rcases (insert_pt_mem ps q x).mp hx with rfl | hx'
        · exact h1
        · exact hr x hx'
      · have h1' := pairLt_false_of_not_true h1
        by_cases h2 : r = q
        · rw [insert_pt_cons_eq ps h1' h2]
          exact List.Pairwise.cons hr htail
        · rw [insert_pt_cons_gt ps h1' h2]
          refine List.Pairwise.cons ?_ (List.Pairwise.cons hr htail)
          intro x hx
          rcases List.mem_cons.mp hx with rfl | hx'
          · exact pairLt_flip h1' h2
          · exact pairLt_trans (pairLt_flip h1' h2) (hr x hx')

theorem insert_pt_length_not_mem {ps : List (Nat × Nat)} {q : Nat × Nat}
    (h : ¬ q ∈ ps) : (insert_pt ps q).length = ps.length + 1 := by
  induction ps with
  | nil => rfl
  | cons r ps ih =>
      have hq : ¬ q ∈ ps := fun hc => h (by simp [hc])
      have hrq2 : ¬ r = q := fun hc => h (by simp [← hc])
      by_cases h1 : pairLt r q = true
      · rw [insert_pt_cons_lt ps h1]
        simp [ih hq]
      · rw [insert_pt_cons_gt ps (pairLt_false_of_not_true h1) hrq2]
        simp

theorem insert_pt_eq_of_mem {ps : List (Nat × Nat)} {q : Nat × Nat}
    (hs : List.Pairwise PairLt ps) (h : q ∈ ps) : insert_pt ps q = ps := by
  induction hs with
  | nil => simp at h
  | @cons r ps hr htail ih =>
      rcases List.mem_cons.mp h with rfl | hmem
      · rw [insert_pt_cons_eq ps (pairLt_irrefl q) rfl]
      · rw [insert_pt_cons_lt ps (hr q hmem), ih hmem]

theorem foldl_insert_pt_sorted (l : List (Nat × Nat)) :
    ∀ acc, List.Pairwise PairLt acc →
      List.Pairwise PairLt (l.foldl insert_pt acc) := by
  induction l with
  | nil => intro acc h; exact h
  | cons p l ih => intro acc h; exact ih _ (insert_pt_sorted p h)

theorem foldl_insert_pt_mem (l : List (Nat × Nat)) :
    ∀ (acc : List (Nat × Nat)) (x : Nat × Nat),
      x ∈ l.foldl insert_pt acc ↔ x ∈ acc ∨ x ∈ l := by
  induction l with
  | nil => intro acc x; simp
  | cons p l ih =>
      intro acc x
      rw [List.foldl_cons, ih, insert_pt_mem]
      simp only [List.mem_cons]
      tauto

theorem fold_pairs_sorted (l : List (Nat × Nat)) :
    List.Pairwise PairLt (fold_pairs l) :=
  foldl_insert_pt_sorted l [] List.Pairwise.nil

theorem fold_pairs_mem (l : List (Nat × Nat)) (x : Nat × Nat) :
    x ∈ fold_pairs l ↔ x ∈ l := by
  unfold fold_pairs
  rw [foldl_insert_pt_mem]
  simp

theorem fold_pairs_card (l : List (Nat × Nat)) :
    (fold_pairs l).length = l.toFinset.card := by
  have hs := fold_pairs_sorted l
  have hnd : (fold_pairs l).Nodup :=
    List.Pairwise.imp (fun h => pairLt_ne h) hs
  have hset : (fold_pairs l).toFinset = l.toFinset := by
    apply Finset.ext
    intro x
    simp only [List.mem_toFinset]
    exact fold_pairs_mem l x
  rw [← List.toFinset_card_of_nodup hnd, hset]

theorem phase_a_canon (g : gvt) (z : Nat) (pts : List (Nat × Nat)) :
    phase_a g z pts = canon z (fun _ => []) (fold_pairs (pts.map (fragPairN g))) := by
  suffices h : ∀ acc, List.Pairwise PairLt acc →
      pts.foldl (fun ids p => insert_column z ids (g.frag_id ⟨p.1, p.2, 0⟩))
        (canon z (fun _ => []) acc) =
      canon z (fun _ => []) ((pts.map (fragPairN g)).foldl insert_pt acc) by
    have hbase := h [] List.Pairwise.nil
    rw [canon_nil] at hbase
    exact hbase
  induction pts with
  | nil => intro acc h; simp
  | cons p pts ih =>
      intro acc hacc
      simp only [List.foldl_cons, List.map_cons]
      have hfid : g.frag_id ⟨p.1, p.2, 0⟩ =
          ⟨(fragPairN g p).1, (fragPairN g p).2, 0⟩ := by
        simp [gvt.frag_id, fragPairN, Nat.zero_div]
      rw [hfid, insert_column_canon z (fragPairN g p) acc hacc]
      exact ih (insert_pt acc (fragPairN g p)) (insert_pt_sorted _ hacc)

theorem canon_pairwise (z : Nat) (f : (Nat × Nat) → List (Nat × Nat)) :
    ∀ (ps : List (Nat × Nat)), List.Pairwise PairLt ps →
      List.Pairwise LexLt ((canon z f ps).map (fun s => s.id)) := by
  intro ps hs
  induction hs with
  | nil => simp [canon_nil]
  | @cons r ps hr htail ih =>
      rw [canon_cons, List.map_append, List.pairwise_append]
      refine ⟨?_, ih, ?_⟩
      · simp only [colC, List.map_map]
        rw [List.pairwise_map]
        refine (List.pairwise_lt_range z).imp ?_
        intro a b hab
        show LexLt ⟨r.1, r.2, a⟩ ⟨r.1, r.2, b⟩
        unfold LexLt
        rw [lexLt_same_pair]
        simpa using hab
      · intro a ha b hb
        simp only [List.mem_map] at ha hb
        obtain ⟨sa, hsa, rfl⟩ := ha
        obtain ⟨sb, hsb, rfl⟩ := hb
        obtain ⟨k, hk, rfl⟩ := mem_colC hsa
        obtain ⟨qb, hqb, j, hj, rfl⟩ := canon_mem hsb
        show LexLt ⟨r.1, r.2, k⟩ ⟨qb.1, qb.2, j⟩
        unfold LexLt
        exact lexLt_of_pairLt (hr qb hqb) k j

theorem take_len_append {α : Type} (l1 l2 : List α) (n : Nat)
    (h : l1.length = n) : (l1 ++ l2).take n = l1 := by
  subst h
  exact List.take_left _ _

theorem drop_len_append {α : Type} (l1 l2 : List α) (n : Nat)
    (h : l1.length = n) : (l1 ++ l2).drop n = l2 := by
  subst h
  exact List.drop_left _ _

theorem append_coord_canon (z : Nat) (f : (Nat × Nat) → List (Nat × Nat))
    (ps : List (Nat × Nat)) (q : Nat × Nat) (c : Nat × Nat)
    (hs : List.Pairwise PairLt ps) (hq : q ∈ ps) :
    append_coord z (canon z f ps) ⟨q.1, q.2, 0⟩ c =
      canon z (fun r => if r = q then f r ++ [c] else f r) ps := by
  cases z with
  | zero =>
      rw [canon_zero, canon_zero]
      simp [append_coord]
  | succ n =>
      obtain ⟨ps1, ps2, rfl⟩ := List.append_of_mem hq
      rw [List.pairwise_append] at hs
      obtain ⟨hs1, hmid, hcross⟩ := hs
      have hq2 : ∀ b ∈ ps2, PairLt q b := (List.pairwise_cons.mp hmid).1
      have htrue : ∀ x ∈ canon (n + 1) f ps1,
          (fun s => lexLt s.id (⟨q.1, q.2, 0⟩ : Triple)) x = true := by
        intro x hx
        obtain ⟨r, hr, k, hk, rfl⟩ := canon_mem hx
        show lexLt ⟨r.1, r.2, k⟩ ⟨q.1, q.2, 0⟩ = true
        rw [lexLt_col_target]
        exact hcross r hr q (by simp)
      have hpred0 : (fun s => lexLt s.id (⟨q.1, q.2, 0⟩ : Triple))
          (⟨⟨q.1, q.2, 0⟩, f q⟩ : single) = false := by
        show lexLt ⟨q.1, q.2, 0⟩ ⟨q.1, q.2, 0⟩ = false
        rw [lexLt_col_target]
        exact pairLt_irrefl q
      have hsplit : canon (n + 1) f (ps1 ++ q :: ps2) =
          canon (n + 1) f ps1 ++ (colC (n + 1) q (f q) ++ canon (n + 1) f ps2) := by
        rw [canon_append, canon_cons]
      have htake : (canon (n + 1) f ps1 ++
            (colC (n + 1) q (f q) ++ canon (n + 1) f ps2)).takeWhile
            (fun s => lexLt s.id (⟨q.1, q.2, 0⟩ : Triple)) =
          canon (n + 1) f ps1 := by
        rw [takeWhile_append_all _ _ _ htrue, colC_succ, List.cons_append,
          takeWhile_cons_false (fun s => lexLt s.id (⟨q.1, q.2, 0⟩ : Triple))
            (⟨⟨q.1, q.2, 0⟩, f q⟩ : single) _ hpred0, List.append_nil]
      have hdrop : (canon (n + 1) f ps1 ++
            (colC (n + 1) q (f q) ++ canon (n + 1) f ps2)).dropWhile
            (fun s => lexLt s.id (⟨q.1, q.2, 0⟩ : Triple)) =
          colC (n + 1) q (f q) ++ canon (n + 1) f ps2 := by
        rw [dropWhile_append_all _ _ _ htrue, colC_succ, List.cons_append,
          dropWhile_cons_false (fun s => lexLt s.id (⟨q.1, q.2, 0⟩ : Triple))
            (⟨⟨q.1, q.2, 0⟩, f q⟩ : single) _ hpred0, ← List.cons_append, ← colC_succ]
      have htk : (colC (n + 1) q (f q) ++ canon (n + 1) f ps2).take (n + 1) =
          colC (n + 1) q (f q) :=
        take_len_append _ _ _ (length_colC _ _ _)
      have hdr : (colC (n + 1) q (f q) ++ canon (n + 1) f ps2).drop (n + 1) =
          canon (n + 1) f ps2 :=
        drop_len_append _ _ _ (length_colC _ _ _)
      have hmap : (colC (n + 1) q (f q)).map
            (fun s => { s with coordinates := s.coordinates ++ [c] }) =
          colC (n + 1) q (f q ++ [c]) := by
        simp [colC, List.map_map]
      have e1 : canon (n + 1) (fun r => if r = q then f r ++ [c] else f r) ps1 =
          canon (n + 1) f ps1 := by
        refine (canon_congr ?_).symm
        intro r hr
        rw [if_neg (pairLt_ne (hcross r hr q (by simp)))]
      have e3 : canon (n + 1) (fun r => if r = q then f r ++ [c] else f r) ps2 =
          canon (n + 1) f ps2 := by
        refine (canon_congr ?_).symm
        intro r hr
        rw [if_neg (Ne.symm (pairLt_ne (hq2 r hr)))]
      rw [hsplit]
      simp only [append_coord, htake, hdrop, htk, hdr, hmap]
      rw [canon_append, canon_cons, e1, e3]
      simp

theorem phase_b_canon (g : gvt) (z : Nat) :
    ∀ (pts : List (Nat × Nat)) (f : (Nat × Nat) → List (Nat × Nat))
      (ps : List (Nat × Nat)), List.Pairwise PairLt ps →
      (∀ p ∈ pts, fragPairN g p ∈ ps) →
      phase_b g z pts (canon z f ps) =
        canon z (fun r => f r ++ (pts.filter
          (fun p => decide (fragPairN g p = r))).map
          (fun p => (p.1 % g.frag.x0, p.2 % g.frag.x1))) ps := by
  intro pts
  induction pts with
  | nil =>
      intro f ps hs hmem
      simp only [phase_b, List.foldl_nil]
      refine canon_congr ?_
      intro r hr
      simp
  | cons p pts ih =>
      intro f ps hs hmem
      simp only [phase_b, List.foldl_cons]
      have hfid : g.frag_id ⟨p.1, p.2, 0⟩ =
          ⟨(fragPairN g p).1, (fragPairN g p).2, 0⟩ := by
        simp [gvt.frag_id, fragPairN]
      have hloc : ((g.to_local ⟨p.1, p.2, 0⟩).x0, (g.to_local ⟨p.1, p.2, 0⟩).x1) =
          (p.1 % g.frag.x0, p.2 % g.frag.x1) := by
        simp [gvt.to_local]
      rw [hfid, hloc,
        append_coord_canon z f ps (fragPairN g p) _ hs (hmem p (by simp))]
      have hstep := ih (fun r => if r = fragPairN g p then
          f r ++ [(p.1 % g.frag.x0, p.2 % g.frag.x1)] else f r) ps hs
        (fun p' hp' => hmem p' (by simp [hp']))
      refine Eq.trans hstep (canon_congr ?_)
      intro r hr
      show (if r = fragPairN g p then
          f r ++ [(p.1 % g.frag.x0, p.2 % g.frag.x1)] else f r) ++
        List.map (fun p => (p.1 % g.frag.x0, p.2 % g.frag.x1))
          (List.filter (fun p => decide (fragPairN g p = r)) pts) =
      f r ++ List.map (fun p => (p.1 % g.frag.x0, p.2 % g.frag.x1))
          (List.filter (fun p => decide (fragPairN g p = r)) (p :: pts))
      by_cases hrp : fragPairN g p = r
      · rw [if_pos hrp.symm, List.filter_cons, if_pos (by simp [hrp])]
        simp
      · rw [if_neg (fun hc => hrp hc.symm), List.filter_cons,
          if_neg (by simp [hrp])]

set_option maxRecDepth 4000 in
theorem partition_flatten {α ι : Type} (ge : α → List ι) (se : α → List ι → α)
    (hset : ∀ a xs, ge (se a xs) = xs) (out : α) (T : Int) (l : List α)
    (hT : 1 ≤ T) (hov : ((ge out).length : Int) + (T - 1) ≤ 2 ^ 31 - 1)
    (hok : partition ge se out T = Except.ok l) :
    (l.map ge).flatten = ge out := by
  obtain ⟨k, rfl⟩ := Int.eq_ofNat_of_zero_le (show (0 : Int) ≤ T by omega)
  have hk1 : 1 ≤ k := by exact_mod_cast hT
  set N := (ge out).length with hN
  have hw1 : wrap32 (Int.ofNat N) = Int.ofNat N := by
    rw [Int.ofNat_eq_natCast]
    exact wrap32_eq_self (by omega) (by omega)
  have hsum : (N : Int) + ((k : Int) - 1) = ((N + k - 1 : Nat) : Int) := by omega
  have hw2 : wrap32 ((N : Int) + ((k : Int) - 1)) = ((N + k - 1 : Nat) : Int) := by
    rw [hsum]
    exact wrap32_eq_self (by omega) (by omega)
  have htc : task_count (wrap32 (Int.ofNat N)) (k : Int) =
      if ((N + k - 1) / k : Nat) = 0 then Except.error Err.logicError
      else Except.ok (((N + k - 1) / k : Nat) : Int) := by
    unfold task_count
    rw [hw1, Int.ofNat_eq_natCast, hw2, tdiv_natCast]
    by_cases hc : (N + k - 1) / k = 0
    · rw [if_pos (by simp [hc]), if_pos hc]
    · rw [if_neg (Int.not_le.mpr (by exact_mod_cast Nat.pos_of_ne_zero hc)),
        if_neg hc]
  unfold partition at hok
  rw [if_neg (by omega : ¬ ((k : Int) < 1))] at hok
  rw [← hN] at hok
  rw [htc] at hok
  by_cases hc : (N + k - 1) / k = 0
  · rw [if_pos hc] at hok
    exact absurd hok (by simp)
  · rw [if_neg hc] at hok
    simp only at hok
    rw [← Except.ok.inj hok]
    apply chunk_loop_flatten ge se hset
    have h1 : ((k : Int)).toNat = k := Int.toNat_natCast k
    have h2 : ((((N + k - 1) / k : Nat) : Int)).toNat = (N + k - 1) / k :=
      Int.toNat_natCast ((N + k - 1) / k)
    rw [h1, h2]
    exact ceil_cover N k hk1

theorem curtain_build_ids (t : curtain_task) (m : Manifest) (out : curtain_fetch)
    (hok : curtain_build t m = Except.ok out) :
    out.ids = canon ((geometry m t.shape).fragment_count 2)
      (fun r => ((trace_pts out).filter
          (fun p => decide (fragPairN (geometry m t.shape) p = r))).map
        (fun p => (p.1 % t.shape.x0, p.2 % t.shape.x1)))
      (fold_pairs ((trace_pts out).map (fragPairN (geometry m t.shape)))) := by
  unfold curtain_build at hok
  cases h0 : to_cartesian_inplace m.dim0 t.dim0s with
  | error e =>
      simp only [h0] at hok
      exact absurd hok (by simp)
  | ok c0 =>
      simp only [h0] at hok
      cases h1 : to_cartesian_inplace m.dim1 t.dim1s with
      | error e =>
          simp only [h1] at hok
          exact absurd hok (by simp)
      | ok c1 =>
          simp only [h1] at hok
          have hout := Except.ok.inj hok
          subst hout
          show phase_b (geometry m t.shape) ((geometry m t.shape).fragment_count 2)
              ((c0.zip c1).map (fun p => (p.1.toNat, p.2.toNat)))
              (phase_a (geometry m t.shape) ((geometry m t.shape).fragment_count 2)
                ((c0.zip c1).map (fun p => (p.1.toNat, p.2.toNat)))) = _
          rw [phase_a_canon]
          refine Eq.trans (phase_b_canon (geometry m t.shape)
            ((geometry m t.shape).fragment_count 2)
            ((c0.zip c1).map (fun p => (p.1.toNat, p.2.toNat))) (fun _ => [])
            (fold_pairs (((c0.zip c1).map (fun p => (p.1.toNat, p.2.toNat))).map
              (fragPairN (geometry m t.shape))))
            (fold_pairs_sorted _) ?_) ?_
          · intro p hp
            rw [fold_pairs_mem]
            exact List.mem_map_of_mem _ hp
          · refine canon_congr ?_
            intro r hr
            exact (List.nil_append _).trans rfl

set_option maxRecDepth 2000 in
/-- C3: for every curtain request whose labels all resolve, the ids list
of the returned curtain fetch is strictly lexicographically ascending
(also when concatenated across the emitted tasks in emission order), its
length equals `U * fragment_count(axis 2)` where `U` is the number of
distinct `(fx, fy)` fragment-coordinate pairs induced by the input
traces, and each distinct `(fx, fy)` contributes exactly one bucket per
fragment z in `0..zfrags-1`. -/
theorem spec_C3 (t : curtain_task) (m : Manifest) (out : curtain_fetch)
    (hok : curtain_build t m = Except.ok out) :
    List.Pairwise LexLt (out.ids.map (fun s => s.id)) ∧
    out.ids.length =
      (((out.dim0s.zip out.dim1s).map
        (fragPair (geometry m t.shape))).toFinset.card) *
        ((geometry m t.shape).fragment_count 2) ∧
    (∀ (a b c : Nat), (⟨a, b, c⟩ : Triple) ∈ out.ids.map (fun s => s.id) ↔
      ((a, b) ∈ (out.dim0s.zip out.dim1s).map (fragPair (geometry m t.shape)) ∧
        c < (geometry m t.shape).fragment_count 2)) ∧
    (∀ (T : Int) (l : List curtain_fetch), 1 ≤ T →
      ((out.ids.length : Int) + (T - 1) ≤ 2 ^ 31 - 1) →
      partition (fun f => f.ids) (fun f xs => { f with ids := xs }) out T =
        Except.ok l →
      (l.map (fun f => f.ids)).flatten = out.ids) := by
  have hids := curtain_build_ids t m out hok
  have hmapeq : (trace_pts out).map (fragPairN (geometry m t.shape)) =
      (out.dim0s.zip out.dim1s).map (fragPair (geometry m t.shape)) := by
    simp only [trace_pts, List.map_map]
    rfl
  refine ⟨?_, ?_, ?_, ?_⟩
  · rw [hids]
    exact canon_pairwise _ _ _ (fold_pairs_sorted _)
  · rw [hids, canon_length]
    rw [fold_pairs_card]
    rw [hmapeq]
  · intro a b c
    rw [hids, canon_id_mem, fold_pairs_mem, hmapeq]
  · intro T l hT hov hpart
    have h := partition_flatten (fun f : curtain_fetch => f.ids)
      (fun f xs => { f with ids := xs }) (fun _ _ => rfl) out T l hT hov hpart
    exact h

/-- C5: for every curtain request whose labels resolve, each bucket of
the returned fetch carries exactly the local coordinates
`(x % s0, y % s1)` of the input traces falling in its `(fx, fy)` column,
in input order with duplicates preserved; consequently every stored
local pair is bounded by the fragment shape and recombines with the
bucket id to one of the input Cartesian pairs. -/
theorem spec_C5 (t : curtain_task) (m : Manifest) (out : curtain_fetch)
    (hok : curtain_build t m = Except.ok out)
    (hs0 : 0 < t.shape.x0) (hs1 : 0 < t.shape.x1) :
    ∀ b ∈ out.ids,
      (b.coordinates = ((out.dim0s.zip out.dim1s).filter
          (fun p => decide (fragPair (geometry m t.shape) p =
            (b.id.x0, b.id.x1)))).map
        (fun p => (p.1.toNat % t.shape.x0, p.2.toNat % t.shape.x1))) ∧
      ∀ c ∈ b.coordinates, c.1 < t.shape.x0 ∧ c.2 < t.shape.x1 ∧
        ∃ p ∈ out.dim0s.zip out.dim1s,
          p.1.toNat = b.id.x0 * t.shape.x0 + c.1 ∧
          p.2.toNat = b.id.x1 * t.shape.x1 + c.2 := by
  intro b hb
  have hids := curtain_build_ids t m out hok
  rw [hids] at hb
  obtain ⟨q, hq, k, hk, rfl⟩ := canon_mem hb
  constructor
  · show ((trace_pts out).filter
        (fun p => decide (fragPairN (geometry m t.shape) p = q))).map
        (fun p => (p.1 % t.shape.x0, p.2 % t.shape.x1)) = _
    rw [trace_pts, List.filter_map, List.map_map]
    rfl
  · intro c hc
    simp only [List.mem_map, List.mem_filter] at hc
    obtain ⟨p', ⟨hp'mem, hp'pred⟩, rfl⟩ := hc
    simp only [trace_pts, List.mem_map] at hp'mem
    obtain ⟨p, hpzip, rfl⟩ := hp'mem
    have hfrag : fragPairN (geometry m t.shape) (p.1.toNat, p.2.toNat) = q :=
      of_decide_eq_true hp'pred
    have h1 : q.1 = p.1.toNat / t.shape.x0 := by rw [← hfrag]; rfl
    have h2 : q.2 = p.2.toNat / t.shape.x1 := by rw [← hfrag]; rfl
    refine ⟨Nat.mod_lt _ hs0, Nat.mod_lt _ hs1, p, hpzip, ?_, ?_⟩
    · show p.1.toNat = q.1 * t.shape.x0 + p.1.toNat % t.shape.x0
      have hdm := Nat.div_add_mod p.1.toNat t.shape.x0
      rw [h1, Nat.mul_comm]
      omega
    · show p.2.toNat = q.2 * t.shape.x1 + p.2.toNat % t.shape.x1
      have hdm := Nat.div_add_mod p.2.toNat t.shape.x1
      rw [h2, Nat.mul_comm]
      omega

set_option maxRecDepth 4000 in
/-- Witness for C3 at the scenario curtain request: two distinct fragment
columns of two z-fragments each, sorted and complete. -/
theorem spec_C3_witness :
    List.Pairwise LexLt (exCurtainFetch.ids.map (fun s => s.id)) ∧
    exCurtainFetch.ids.length =
      (((exCurtainFetch.dim0s.zip exCurtainFetch.dim1s).map
        (fragPair (geometry exCurtainManifest exCurtainTask.shape))).toFinset.card) *
        ((geometry exCurtainManifest exCurtainTask.shape).fragment_count 2) ∧
    (∀ (a b c : Nat),
      (⟨a, b, c⟩ : Triple) ∈ exCurtainFetch.ids.map (fun s => s.id) ↔
      ((a, b) ∈ (exCurtainFetch.dim0s.zip exCurtainFetch.dim1s).map
          (fragPair (geometry exCurtainManifest exCurtainTask.shape)) ∧
        c < (geometry exCurtainManifest exCurtainTask.shape).fragment_count 2)) ∧
    (∀ (T : Int) (l : List curtain_fetch), 1 ≤ T →
      ((exCurtainFetch.ids.length : Int) + (T - 1) ≤ 2 ^ 31 - 1) →
      partition (fun f => f.ids) (fun f xs => { f with ids := xs })
        exCurtainFetch T = Except.ok l →
      (l.map (fun f => f.ids)).flatten = exCurtainFetch.ids) := by
  have h := spec_C3 exCurtainTask exCurtainManifest exCurtainFetch (by decide)
  exact h

set_option maxRecDepth 4000 in
/-- Witness for C5 at the scenario curtain request and the bucket of
column `(1, 0)`: its coordinates are the two duplicate locals of the
duplicated input trace, each bounded and recombining to the trace. -/
theorem spec_C5_witness :
    (exBucket.coordinates =
      ((exCurtainFetch.dim0s.zip exCurtainFetch.dim1s).filter
        (fun p => decide (fragPair (geometry exCurtainManifest exCurtainTask.shape) p =
          (exBucket.id.x0, exBucket.id.x1)))).map
      (fun p => (p.1.toNat % exCurtainTask.shape.x0,
        p.2.toNat % exCurtainTask.shape.x1))) ∧
    ∀ c ∈ exBucket.coordinates,
      c.1 < exCurtainTask.shape.x0 ∧ c.2 < exCurtainTask.shape.x1 ∧
      ∃ p ∈ exCurtainFetch.dim0s.zip exCurtainFetch.dim1s,
        p.1.toNat = exBucket.id.x0 * exCurtainTask.shape.x0 + c.1 ∧
        p.2.toNat = exBucket.id.x1 * exCurtainTask.shape.x1 + c.2 := by
  have h := spec_C5 exCurtainTask exCurtainManifest exCurtainFetch (by decide)
    (by decide) (by decide) exBucket (by decide)
  exact h
